import Mathlib

/-!
Verification development for the DWARF-based probe resolver
(`tools/perf/util/probe-finder.c`, linux-2.6.35).

Each C function that the claims depend on is shallowly embedded as a Lean
definition.  Machine integers are modelled as `Nat`/`Int`; DWARF library
queries (libdw) that the code performs are passed in as explicit data or
injected functions, mirroring the values the library would return.
-/

namespace ProbeFinder

/-! ## DWARF expression opcodes (constants from dwarf.h) -/

def DW_OP_addr : Nat := 0x03
def DW_OP_reg0 : Nat := 0x50
def DW_OP_reg31 : Nat := 0x6f
def DW_OP_breg0 : Nat := 0x70
def DW_OP_breg31 : Nat := 0x8f
def DW_OP_regx : Nat := 0x90
def DW_OP_fbreg : Nat := 0x91
def DW_OP_bregx : Nat := 0x92
def DW_OP_call_frame_cfa : Nat := 0x9c

/-- One decoded DWARF location operation (`Dwarf_Op`): the opcode and its
two operands.  `number` holds the decoded (signed, for sleb operands)
value; 64-bit wraparound of `Dwarf_Word` arithmetic is not modelled, as
all offsets of interest are far below `2^63`. -/
structure DwarfOp where
  atom : Nat
  number : Int
  number2 : Int
deriving DecidableEq, Repr

/-- Error kinds: the negative errno values the C functions return,
plus `nullDeref`, which marks a state in which the C code dereferences
a NULL pointer (undefined behaviour). -/
inductive CErr where
  | noent      -- -ENOENT
  | notsup     -- -ENOTSUP
  | range      -- -ERANGE
  | nomem      -- -ENOMEM
  | inval      -- -EINVAL
  | badf       -- -EBADF
  | nullDeref  -- NULL pointer dereference in the C code
deriving DecidableEq, Repr

/-- `struct kprobe_trace_arg`: the trace value of one probe argument.
`ref` is the chain of indirection offsets (`struct kprobe_trace_arg_ref`),
listed outermost-first as the C linked list stores them. -/
structure KprobeTraceArg where
  value : String
  ref : List Int
  argType : Option String
deriving DecidableEq, Repr

/-- `convert_variable_location`: translate the variable's DWARF location
expression at the probe address into a trace value.

* `varName` — `dwarf_diename(vr_die)` (used for the `DW_OP_addr` case);
* `locOps` — the ops returned by `dwarf_getlocation_addr` for the probe
  address (the C code uses only `op[0]` and fails when none are returned);
* `fb_ops` — the first op of the subprogram's resolved frame-base
  expression (`pf->fb_ops[0]`), or `none` when no frame base is available;
* `regstr` — the injected architecture register table `get_arch_regstr`. -/
def convert_variable_location (varName : String) (locOps : List DwarfOp)
    (fb_ops : Option DwarfOp) (regstr : Nat → Option String) :
    Except CErr KprobeTraceArg :=
  match locOps with
  | [] => .error .noent
  | op₀ :: _ =>
    if op₀.atom = DW_OP_addr then
      -- static variable in memory: "@varname", one reference frame at offs = 0
      .ok { value := "@" ++ varName, ref := [0], argType := none }
    else
      -- DW_OP_fbreg: substitute the frame-base op, keeping the fbreg offset
      let fbres : Except CErr (DwarfOp × Int × Bool) :=
        if op₀.atom = DW_OP_fbreg then
          match fb_ops with
          | none => .error .notsup
          | some fb => .ok (fb, op₀.number, true)
        else .ok (op₀, 0, false)
      match fbres with
      | .error e => .error e
      | .ok (op, offs₀, ref₀) =>
        let cls : Except CErr (Nat × Int × Bool) :=
          if DW_OP_breg0 ≤ op.atom ∧ op.atom ≤ DW_OP_breg31 then
            .ok (op.atom - DW_OP_breg0, offs₀ + op.number, true)
          else if DW_OP_reg0 ≤ op.atom ∧ op.atom ≤ DW_OP_reg31 then
            .ok (op.atom - DW_OP_reg0, offs₀, ref₀)
          else if op.atom = DW_OP_bregx then
            .ok (op.number.toNat, offs₀ + op.number2, true)
          else if op.atom = DW_OP_regx then
            .ok (op.number.toNat, offs₀, ref₀)
          else .error .notsup
        match cls with
        | .error e => .error e
        | .ok (regn, offs, r) =>
          match regstr regn with
          | none => .error .range
          | some regs =>
            .ok { value := regs, ref := if r then [offs] else [], argType := none }

example :
    convert_variable_location "x" [⟨DW_OP_fbreg, 8, 0⟩]
      (some ⟨DW_OP_breg0 + 7, (-16 : Int), 0⟩) (fun n => if n = 7 then some "sp" else none)
      = .ok { value := "sp", ref := [-8], argType := none } := by rfl

example :
    convert_variable_location "x" [⟨DW_OP_fbreg, 8, 0⟩] none (fun _ => some "r")
      = .error .notsup := by rfl

example :
    convert_variable_location "x" [⟨DW_OP_reg0 + 3, 0, 0⟩] none (fun _ => some "r")
      = .ok { value := "r", ref := [], argType := none } := by rfl

/-! ## DIE model (Dwarf_Die handles and the navigator wrappers) -/

/-- The DWARF tags the resolver inspects. -/
inductive DwTag where
  | const_type | restrict_type | volatile_type | shared_type | typedefTag
  | array_type | pointer_type | structure_type | base_type | member
  | subprogram | inlined_subroutine | formal_parameter | variable | otherTag
deriving DecidableEq, Repr

/-- A DWARF DIE, carrying the attributes the resolver reads:
`tag`, `DW_AT_name`, `DW_AT_byte_size` (0 when absent, as
`die_get_byte_size` returns), the signedness of `DW_AT_encoding`,
the DIE referenced by `DW_AT_type`, the child DIEs, and the resolved
`DW_AT_data_member_location` offset (`none` when unobtainable). -/
inductive Die where
  | mk (tag : DwTag) (dieName : Option String) (byteSize : Nat)
       (signedEnc : Bool) (typeRef : Option Die) (children : List Die)
       (mbLoc : Option Int)

def Die.tag : Die → DwTag
  | .mk t _ _ _ _ _ _ => t

def Die.dieName : Die → Option String
  | .mk _ n _ _ _ _ _ => n

def Die.byteSize : Die → Nat
  | .mk _ _ b _ _ _ _ => b

def Die.signedEnc : Die → Bool
  | .mk _ _ _ s _ _ _ => s

def Die.typeRef : Die → Option Die
  | .mk _ _ _ _ r _ _ => r

def Die.children : Die → List Die
  | .mk _ _ _ _ _ c _ => c

def Die.mbLoc : Die → Option Int
  | .mk _ _ _ _ _ _ m => m

/-- Is the tag one of the qualifiers `die_get_real_type` skips? -/
def isQualifierTag (t : DwTag) : Bool :=
  t = DwTag.const_type ∨ t = DwTag.restrict_type ∨ t = DwTag.volatile_type ∨
  t = DwTag.shared_type ∨ t = DwTag.typedefTag

/-- `die_get_real_type`: follow `DW_AT_type`, skipping qualifiers and
typedefs, until a non-qualifier DIE is reached; `none` when the chain
is broken. -/
def die_get_real_type (d : Die) : Option Die :=
  match d with
  | .mk _ _ _ _ none _ _ => none
  | .mk _ _ _ _ (some t) _ _ =>
    if isQualifierTag t.tag then die_get_real_type t else some t

/-- `die_compare_name`: the C function returns `strcmp(tname, name)` when
the DIE has a name (as a C `bool`: nonzero becomes `true`), and `-1`
(which also becomes `true`) when it has none.  So it is `false` exactly
on a successful match; callers test `== 0`. -/
def die_compare_name (dieName : Option String) (tname : String) : Bool :=
  match dieName with
  | some nm => decide (¬ (tname = nm))
  | none => true

/-- `die_find_member`: first member child whose tag is `DW_TAG_member`
and whose name compares equal (`die_compare_name(...) == 0`). -/
def die_find_member (st : Die) (nm : String) : Option Die :=
  st.children.find? (fun m =>
    decide (m.tag = DwTag.member) && (die_compare_name m.dieName nm == false))

/-- `die_get_byte_size`: `DW_AT_byte_size`, 0 when absent. -/
def die_get_byte_size (d : Die) : Nat := d.byteSize

/-- `die_is_signed_type`: is `DW_AT_encoding` one of the signed kinds. -/
def die_is_signed_type (d : Die) : Bool := d.signedEnc

/-- Kprobe tracer basic type is up to u64 (`MAX_BASIC_TYPE_BITS`). -/
def MAX_BASIC_TYPE_BITS : Nat := 64

/-- `convert_variable_type`: resolve the variable's real type, compute
`bits = byte_size * 8`, clamp to `MAX_BASIC_TYPE_BITS` (with an
informational report, returned here as the second component), and
format `s<bits>`/`u<bits>`; no tag when the byte size is 0. -/
def convert_variable_type (vr : Die) : Except CErr (Option String × Bool) :=
  match die_get_real_type vr with
  | none => .error .noent
  | some t =>
    let ret := die_get_byte_size t * 8
    if ret = 0 then .ok (none, false)
    else
      let clamped := decide (ret > MAX_BASIC_TYPE_BITS)
      let bits := if ret > MAX_BASIC_TYPE_BITS then MAX_BASIC_TYPE_BITS else ret
      .ok (some ((if die_is_signed_type t then "s" else "u") ++ toString bits),
           clamped)

/-! ## Field walker (`convert_variable_fields`) -/

/-- `struct perf_probe_arg_field`: one access step.  `fname` is the C
`name` string (an index step's name starts with `'['`), `refDeref` is
the C `ref` flag (`->` versus `.`), `index` the array index. -/
structure FieldStep where
  fname : String
  refDeref : Bool
  index : Int
deriving DecidableEq, Repr

/-- Add `k` into the current (last) indirection frame of the chain.
Callers establish that the chain is nonempty. -/
def addToCurrentRef (chain : List Int) (k : Int) : List Int :=
  chain.dropLast ++ [chain.getLast! + k]

/-- `convert_variable_fields`: walk one field step (and recursively the
rest), dereferencing pointer/array DIEs and accumulating byte offsets
into the indirection chain.  `chain` is the current `*ref_ptr` list with
the C code's `ref` cursor always at its last element.  Returns the final
chain together with the DIE saved in `die_mem` for type conversion.
`CErr.nullDeref` marks the state in which the C code executes
`ref->offset += ...` with `ref == NULL`. -/
def convert_variable_fields (vr : Die) (field : FieldStep)
    (rest : List FieldStep) (chain : List Int) :
    Except CErr (List Int × Die) :=
  match die_get_real_type vr with
  | none => .error .noent
  | some ty =>
    let tag := ty.tag
    if field.fname.data.head? = some '[' ∧
       (tag = DwTag.array_type ∨ tag = DwTag.pointer_type) then
      -- index step on an array or pointer type
      match die_get_real_type ty with
      | none => .error .noent
      | some elem =>
        -- a pointer allocates a fresh indirection frame; an array does not
        let chain₁ := if tag = DwTag.pointer_type then chain ++ [0] else chain
        if chain₁ = [] then .error .nullDeref
        else
          let chain₂ := addToCurrentRef chain₁ ((die_get_byte_size elem : Int) * field.index)
          -- die_mem: the array/pointer type when more steps follow,
          -- otherwise the variable DIE itself (saved for type conversion)
          let dieMem := if rest = [] then vr else ty
          match rest with
          | [] => .ok (chain₂, dieMem)
          | f :: fs => convert_variable_fields dieMem f fs chain₂
    else if tag = DwTag.pointer_type then
      -- member step on a pointer: require '->', dereference into a struct
      if ¬ field.refDeref then .error .inval
      else
        match die_get_real_type ty with
        | none => .error .noent
        | some pty =>
          if ¬ (pty.tag = DwTag.structure_type) then .error .inval
          else
            match die_find_member pty field.fname with
            | none => .error .inval
            | some mdie =>
              match mdie.mbLoc with
              | none => .error .noent
              | some offs =>
                let chain₂ := addToCurrentRef (chain ++ [0]) offs
                match rest with
                | [] => .ok (chain₂, mdie)
                | f :: fs => convert_variable_fields mdie f fs chain₂
    else
      -- member step on a non-pointer: must be a struct accessed with '.'
      if ¬ (tag = DwTag.structure_type) then .error .inval
      else if field.fname.data.head? = some '[' then .error .inval
      else if field.refDeref then .error .inval
      else if chain = [] then .error .notsup  -- structure on a register
      else
        match die_find_member ty field.fname with
        | none => .error .inval
        | some mdie =>
          match mdie.mbLoc with
          | none => .error .noent
          | some offs =>
            let chain₂ := addToCurrentRef chain offs
            match rest with
            | [] => .ok (chain₂, mdie)
            | f :: fs => convert_variable_fields mdie f fs chain₂

/-- `convert_variable`: location evaluation, then the field walk (when a
field chain is present), then the type tag (the user's cast wins over the
inferred type).  The second result component reports whether the
bit-width clamp fired. -/
def convert_variable (vr : Die) (locOps : List DwarfOp)
    (fb_ops : Option DwarfOp) (regstr : Nat → Option String)
    (fields : List FieldStep) (cast : Option String) :
    Except CErr (KprobeTraceArg × Bool) :=
  match convert_variable_location ((vr.dieName).getD "") locOps fb_ops regstr with
  | .error e => .error e
  | .ok tvar =>
    let walked : Except CErr (List Int × Die) :=
      match fields with
      | [] => .ok (tvar.ref, vr)
      | f :: fs => convert_variable_fields vr f fs tvar.ref
    match walked with
    | .error e => .error e
    | .ok (chain, die₂) =>
      match cast with
      | some c => .ok ({ tvar with ref := chain, argType := some c }, false)
      | none =>
        match convert_variable_type die₂ with
        | .error e => .error e
        | .ok (tyTag, rep) =>
          .ok ({ tvar with ref := chain, argType := tyTag }, rep)

example :
    convert_variable_fields
      (Die.mk .variable (some "a") 0 false
        (some (Die.mk .array_type none 16 false
          (some (Die.mk .base_type (some "int") 4 true none [] none)) [] none)) [] none)
      ⟨"[2]", false, 2⟩ [] []
      = .error .nullDeref := by rfl

example :
    convert_variable_fields
      (Die.mk .variable (some "a") 0 false
        (some (Die.mk .array_type none 16 false
          (some (Die.mk .base_type (some "int") 4 true none [] none)) [] none)) [] none)
      ⟨"[2]", false, 2⟩ [] [5]
      = .ok ([13],
             Die.mk .variable (some "a") 0 false
               (some (Die.mk .array_type none 16 false
                 (some (Die.mk .base_type (some "int") 4 true none [] none)) [] none)) [] none)
      := by rfl

/-! ## Probe point conversion: capacity (`convert_probe_point`) -/

/-- `struct kprobe_trace_event`: one emitted probe record. -/
structure KprobeTraceEvent where
  symbol : Option String
  offset : Nat
  args : List KprobeTraceArg
deriving DecidableEq, Repr

/-- The slice of `struct probe_finder` state that `convert_probe_point`
mutates: the emitted events (`pf->tevs[0..ntevs)`), the reservation
counter `ntevs`, and the capacity `max_tevs`.  `tevs` holds the
completely built events; a slot reserved by a conversion that later
failed is counted by `ntevs` but carries no completed event. -/
structure ProbeState where
  tevs : List KprobeTraceEvent
  ntevs : Nat
  max_tevs : Nat
deriving DecidableEq, Repr

/-- `convert_probe_point`, with everything after the capacity check and
slot reservation — the subprogram lookup, entry-pc/offset computation,
frame-base resolution and per-argument conversion — abstracted as the
already-computed outcome `build`.  The C code first checks
`ntevs == max_tevs` (returning `-ERANGE` before touching anything),
then reserves a slot with `ntevs++`, then fills it. -/
def convert_probe_point (st : ProbeState)
    (build : Except CErr KprobeTraceEvent) :
    Except CErr Unit × ProbeState :=
  if st.ntevs = st.max_tevs then (.error .range, st)
  else
    match build with
    | .ok tev => (.ok (), { st with ntevs := st.ntevs + 1, tevs := st.tevs ++ [tev] })
    | .error e => (.error e, { st with ntevs := st.ntevs + 1 })

/-- Run a sequence of probe-point conversions, threading the state as the
search loops in `find_kprobe_trace_events` do. -/
def run_conversions (st : ProbeState) :
    List (Except CErr KprobeTraceEvent) → ProbeState
  | [] => st
  | b :: bs => run_conversions (convert_probe_point st b).2 bs

/-- Initial finder state with capacity `max`. -/
def initProbeState (max : Nat) : ProbeState := ⟨[], 0, max⟩

/-! ## Tail comparison of paths (`strtailcmp`) -/

/-- The loop body of `strtailcmp`, acting on the two strings already
reversed: compare character by character, returning the difference at the
first mismatch and 0 when either side is exhausted. -/
def tailcmpAux : List Char → List Char → Int
  | c₁ :: t₁, c₂ :: t₂ =>
    if c₁ = c₂ then tailcmpAux t₁ t₂
    else (c₁.toNat : Int) - (c₂.toNat : Int)
  | _, _ => 0

/-- `strtailcmp`: compare the tails of two strings from the right,
character by character; 0 when the whole of either string equals the
other's tail. -/
def strtailcmp (s₁ s₂ : List Char) : Int :=
  tailcmpAux s₁.reverse s₂.reverse

example : strtailcmp "kernel/sched.c".data "sched.c".data = 0 := by decide
example : strtailcmp "ar.c".data "bar.c".data = 0 := by decide
example : strtailcmp "x.c".data "y.c".data ≠ 0 := by decide

/-! ## Line number list (`line_list__add_line`) -/

/-- The reverse-iteration body of `line_list__add_line`, acting on the
list already reversed (so scanning from the largest entry): insert before
the first entry smaller than `line`; `none` when the line is already
present. -/
def lineListAddRev : List Int → Int → Option (List Int)
  | [], line => some [line]
  | x :: xs, line =>
    if x < line then some (line :: x :: xs)
    else if x = line then none
    else
      match lineListAddRev xs line with
      | none => none
      | some r => some (x :: r)

/-- `line_list__add_line`: reverse-search insertion keeping the list
ascending; returns 1 (and the unchanged list) when the line is already
present, 0 with the extended list otherwise. -/
def line_list__add_line (l : List Int) (line : Int) : Int × List Int :=
  match lineListAddRev l.reverse line with
  | none => (1, l)
  | some r => (0, r.reverse)

/-- `line_list__has_line`: membership test. -/
def line_list__has_line (l : List Int) (line : Int) : Bool := l.contains line

example : line_list__add_line [3, 7] 5 = (0, [3, 5, 7]) := by decide
example : line_list__add_line [3, 5, 7] 5 = (1, [3, 5, 7]) := by decide
example : line_list__add_line [] 4 = (0, [4]) := by decide

/-! ## Source path resolution (`get_real_path`) -/

/-- The errnos on which `get_real_path` strips a path component and
retries (`ENAMETOOLONG`, `ENOENT`, `EROFS`, `EFAULT`). -/
def retryableErrno (e : Int) : Bool :=
  e = 36 || e = 2 || e = 30 || e = 14

/-- `strchr(p, '/')` as a suffix: the suffix of `l` starting at the first
`'/'`, or `none` when there is none. -/
def strchrSlash : List Char → Option (List Char)
  | [] => none
  | x :: xs => if x = '/' then some (x :: xs) else strchrSlash xs

theorem strchrSlash_length_le :
    ∀ (l r : List Char), strchrSlash l = some r → r.length ≤ l.length := by
  intro l
  induction l with
  | nil => intro r h; simp [strchrSlash] at h
  | cons x xs ih =>
    intro r h
    simp only [strchrSlash] at h
    by_cases hx : x = '/'
    · rw [if_pos hx] at h
      injection h with h'
      subst h'
      simp
    · rw [if_neg hx] at h
      have := ih r h
      simp only [List.length_cons]
      omega

/-- One iteration of `get_real_path`'s retry loop when a source prefix
is configured: try `pre ++ "/" ++ raw`; on success return the path; on a
retryable errno, advance `raw` past its first character and then to the
next `'/'` (`raw_path = strchr(++raw_path, '/')`, stripping the leading
path component) and continue (`Sum.inr`) with the shorter suffix, or
fail with `-ENOENT` when no component is left; fail with the errno
otherwise.  `ac` is the injected `access(2)` check: `none` means
readable, `some e` means failure with errno `e`. -/
def realPathStep (ac : List Char → Option Int) (pre raw : List Char) :
    Except Int (List Char) ⊕ List Char :=
  match ac (pre ++ '/' :: raw) with
  | none => .inl (.ok (pre ++ '/' :: raw))
  | some e =>
    if retryableErrno e then
      match raw with
      | [] => .inl (.error (-2))
      | _ :: rest =>
        match strchrSlash rest with
        | none => .inl (.error (-2))
        | some raw' => .inr raw'
    else .inl (.error (-e))

/-- The `for (;;)` retry loop, iterating `realPathStep`.  The recursion
is bounded by a fuel argument; `get_real_path_loop` passes `raw.length`,
which suffices because each retry strictly shortens the suffix
(`realPathStep_inr_length`, `goLoop_fuel_succ`), so the fuel-exhausted
branch (which returns the same `-ENOENT` as suffix exhaustion) is never
reached from the entry point. -/
def goLoop (ac : List Char → Option Int) (pre : List Char) :
    Nat → List Char → Except Int (List Char)
  | 0, raw =>
    match realPathStep ac pre raw with
    | .inl r => r
    | .inr _ => .error (-2)
  | f + 1, raw =>
    match realPathStep ac pre raw with
    | .inl r => r
    | .inr raw' => goLoop ac pre f raw'

/-- The retry loop of `get_real_path` with a configured source prefix. -/
def get_real_path_loop (ac : List Char → Option Int) (pre : List Char)
    (raw : List Char) : Except Int (List Char) :=
  goLoop ac pre raw.length raw

/-- A retry step strictly shortens the suffix. -/
theorem realPathStep_inr_length (ac : List Char → Option Int)
    (pre raw raw' : List Char) (h : realPathStep ac pre raw = .inr raw') :
    raw'.length < raw.length := by
  unfold realPathStep at h
  cases hac : ac (pre ++ '/' :: raw) with
  | none => rw [hac] at h; simp at h
  | some e =>
    rw [hac] at h
    dsimp only at h
    by_cases hre : retryableErrno e
    · rw [if_pos hre] at h
      cases raw with
      | nil => simp at h
      | cons x rest =>
        dsimp only at h
        cases hh : strchrSlash rest with
        | none => rw [hh] at h; simp at h
        | some r =>
          rw [hh] at h
          dsimp only at h
          injection h with h
          subst h
          have := strchrSlash_length_le rest r hh
          simp only [List.length_cons]
          omega
    · rw [if_neg hre] at h
      simp at h

/-- The suffix length bounds the number of retries: with at least that
much fuel, extra fuel does not change the result (so the fuel-exhausted
branch of `goLoop` is unreachable from `get_real_path_loop`). -/
theorem goLoop_fuel_succ (ac : List Char → Option Int) (pre : List Char) :
    ∀ (fuel : Nat) (raw : List Char), raw.length ≤ fuel →
      goLoop ac pre fuel raw = goLoop ac pre (fuel + 1) raw := by
  intro fuel
  induction fuel with
  | zero =>
    intro raw hlen
    have hnil : raw = [] := List.eq_nil_of_length_eq_zero (Nat.le_zero.mp hlen)
    subst hnil
    cases hstep : realPathStep ac pre [] with
    | inl r => simp [goLoop, hstep]
    | inr raw' =>
      exact absurd (realPathStep_inr_length ac pre [] raw' hstep) (by simp)
  | succ f ih =>
    intro raw hlen
    cases hstep : realPathStep ac pre raw with
    | inl r => simp [goLoop, hstep]
    | inr raw' =>
      have hlt := realPathStep_inr_length ac pre raw raw' hstep
      simp only [goLoop, hstep]
      exact ih raw' (by omega)

/-- `get_real_path`: without a configured source prefix, just require
read access to the raw path; with one, run the retry loop. -/
def get_real_path (ac : List Char → Option Int) (spfx : Option (List Char))
    (raw : List Char) : Except Int (List Char) :=
  match spfx with
  | none =>
    match ac raw with
    | none => .ok raw
    | some e => .error (-e)
  | some pre => get_real_path_loop ac pre raw

/-! ## Lazy matcher line scan (`find_lazy_match_lines`) -/

/-- The scan loop of `find_lazy_match_lines` over the file buffer: `acc`
is the portion of the current line read so far (`p1..`), `rem` the rest
of the buffer; each `'\n'` terminates a line which is tested against the
pattern (`strlazymatch`, injected as `m`), collecting matching line
numbers.  Text after the last `'\n'` is never tested — which is why the
C code appends a sentinel newline first. -/
def scanLines (m : List Char → Bool) :
    List Char → List Char → Nat → List Nat
  | _, [], _ => []
  | acc, x :: xs, line =>
    if x = '\n' then
      (if m acc then [line] else []) ++ scanLines m [] xs (line + 1)
    else
      scanLines m (acc ++ [x]) xs line

/-- `find_lazy_match_lines`: append the sentinel newline to the file
contents (`fbuf[st.st_size] = '\n'`) and scan every line, returning the
matching line numbers in order (the C code inserts them into the line
list via `line_list__add_line`, in increasing order). -/
def find_lazy_match_lines (m : List Char → Bool) (content : List Char) :
    List Nat :=
  scanLines m [] (content ++ ['\n']) 1

/-! ## Reverse lookup (`find_perf_probe_point`) -/

/-- The line-table entry `dwarf_getsrc_die` returns for the queried
address, with its address, line number and source path (the latter
`none` when `dwarf_linesrc` fails). -/
structure SrcLineInfo where
  laddr : Nat
  lineno : Int
  src : Option String
deriving DecidableEq, Repr

/-- The inlined instance `die_find_inlinefunc` finds at the address:
its name and its declaration line (`none` when `dwarf_decl_line` fails). -/
structure InlineInfo where
  iname : Option String
  ideclline : Option Int
deriving DecidableEq, Repr

/-- The real subprogram `die_find_real_subprogram` finds at the address:
name, entry pc (`none` when `dwarf_entrypc` fails), declaration line
(`none` when `dwarf_decl_line` fails), and the covering inline instance
if any. -/
structure SubprogInfo where
  sname : Option String
  entrypc : Option Nat
  sdeclline : Option Int
  inlineAt : Option InlineInfo
deriving DecidableEq, Repr

/-- The DWARF queries `find_perf_probe_point` makes at one address. -/
structure DwarfView where
  cuFound : Bool
  srcline : Option SrcLineInfo
  subprog : Option SubprogInfo
deriving DecidableEq, Repr

/-- `struct perf_probe_point` as filled by the reverse lookup. -/
structure PerfProbePoint where
  ppfile : Option String
  ppline : Int
  ppoffset : Nat
  ppfunction : Option String
deriving DecidableEq, Repr

/-- `find_perf_probe_point`: reverse lookup of an address into function,
file and line.  Returns the C return value (1 found, 0 nothing found,
negative errno) together with the filled probe point.  `v` carries the
results of the DWARF queries the function makes. -/
def find_perf_probe_point (v : DwarfView) (addr : Nat) :
    Int × PerfProbePoint :=
  let ppt₀ : PerfProbePoint := ⟨none, 0, 0, none⟩
  if ¬ v.cuFound then (-22, ppt₀)  -- -EINVAL
  else
    -- find a corresponding line: record file and line when the entry's
    -- address is exactly addr and the source path is available
    let lineStep : Option (Int × String) :=
      match v.srcline with
      | none => none
      | some sl =>
        if sl.laddr = addr then
          match sl.src with
          | some s => some (sl.lineno, s)
          | none => none
        else none
    let ppt₁ :=
      match lineStep with
      | some (ln, s) => { ppt₀ with ppline := ln, ppfile := some s }
      | none => ppt₀
    let found₁ : Bool := lineStep.isSome
    let endRet : Int := if found₁ then 1 else 0
    match v.subprog with
    | none => (endRet, ppt₁)
    | some sp =>
      match sp.sname, sp.entrypc with
      | some fnName, some eaddr =>
        if ppt₁.ppline ≠ 0 then
          match sp.inlineAt with
          | some ind =>
            match ind.iname with
            | none => (endRet, ppt₁)  -- goto end
            | some inm =>
              match ind.ideclline with
              | some dl =>
                -- make a relative line number against the inline instance
                (1, { ppt₁ with ppline := ppt₁.ppline - dl,
                                 ppfunction := some inm })
              | none =>
                -- dwarf_decl_line failed (-1): offset path, final ret -1
                (-1, { ppt₁ with ppoffset := addr - eaddr,
                                  ppfunction := some inm })
          | none =>
            if eaddr = addr then
              -- function entry: lineno := ppt->line, so the result is 0
              (1, { ppt₁ with ppline := 0, ppfunction := some fnName })
            else
              match sp.sdeclline with
              | some dl =>
                (1, { ppt₁ with ppline := ppt₁.ppline - dl,
                                 ppfunction := some fnName })
              | none =>
                (-1, { ppt₁ with ppoffset := addr - eaddr,
                                  ppfunction := some fnName })
        else
          -- no line number: use the byte offset from the entry pc
          (1, { ppt₁ with ppoffset := addr - eaddr, ppfunction := some fnName })
      | _, _ => (endRet, ppt₁)  -- nameless or no entry pc: goto end

/-! ## Spec-side definitions used to compare against the code -/

/-- Split a character list at every occurrence of `c`; the result always
has one segment more than there are separators (an empty trailing
segment for a trailing separator). -/
def splitOnChar (c : Char) : List Char → List (List Char)
  | [] => [[]]
  | x :: xs =>
    if x = c then [] :: splitOnChar c xs
    else
      match splitOnChar c xs with
      | [] => [[x]]
      | s :: ss => (x :: s) :: ss

/-- Spec-side: test each listed line against the pattern, numbering from
`line`, and collect the matching line numbers. -/
def matchNumbered (m : List Char → Bool) : List (List Char) → Nat → List Nat
  | [], _ => []
  | s :: ss, line => (if m s then [line] else []) ++ matchNumbered m ss (line + 1)

/-- Spec-side definition, following the spec's words for tail-path
matching: two paths match iff one is a suffix of the other *at
path-component granularity* (the match never splits a path component). -/
def componentTailMatch (s₁ s₂ : List Char) : Bool :=
  let c₁ := splitOnChar '/' s₁
  let c₂ := splitOnChar '/' s₂
  decide (c₁ <:+ c₂ ∨ c₂ <:+ c₁)

example : componentTailMatch "kernel/sched.c".data "sched.c".data = true := by decide
example : componentTailMatch "ar.c".data "bar.c".data = false := by decide

/-! ## Claim theorems -/

/-- Claim C1: when a variable's location at the evaluation pc is
`DW_OP_fbreg n` and the subprogram's frame base is a single `bregN+m`
operation, the location evaluator produces register `N` as the value with
one indirection frame carrying the accumulated offset `n + m`
(reference = true); with no frame base available it fails with
`NotSupported` (`-ENOTSUP`) and produces no value. -/
theorem fbreg_frame_base_composition (n m : Int) (N : Nat) (varName s : String)
    (regstr : Nat → Option String) (hN : N ≤ 31) (hreg : regstr N = some s) :
    convert_variable_location varName [⟨DW_OP_fbreg, n, 0⟩]
        (some ⟨DW_OP_breg0 + N, m, 0⟩) regstr
      = .ok { value := s, ref := [n + m], argType := none } ∧
    convert_variable_location varName [⟨DW_OP_fbreg, n, 0⟩] none regstr
      = .error .notsup := by
  constructor
  · simp only [convert_variable_location, DW_OP_addr, DW_OP_fbreg, DW_OP_breg0,
      DW_OP_breg31, DW_OP_reg0, DW_OP_reg31, DW_OP_bregx, DW_OP_regx]
    norm_num
    rw [if_pos (by omega : 112 + N ≤ 143)]
    simp [Nat.add_sub_cancel_left, hreg]
  · simp [convert_variable_location, DW_OP_addr, DW_OP_fbreg]

/-- Witness for C1 at a concrete input (frame base `breg6 - 24`,
location `fbreg + 8`, register 6 named "bp"). -/
theorem fbreg_frame_base_composition_witness :
    convert_variable_location "var" [⟨DW_OP_fbreg, 8, 0⟩]
        (some ⟨DW_OP_breg0 + 6, -24, 0⟩)
        (fun k => if k = 6 then some "bp" else none)
      = .ok { value := "bp", ref := [8 + -24], argType := none } ∧
    convert_variable_location "var" [⟨DW_OP_fbreg, 8, 0⟩] none
        (fun k => if k = 6 then some "bp" else none)
      = .error .notsup :=
  fbreg_frame_base_composition 8 (-24) 6 "var" "bp"
    (fun k => if k = 6 then some "bp" else none) (by decide) (by decide)

/-- Emitting a sequence of successfully built events appends them in
order while capacity is not exceeded. -/
theorem run_conversions_all_ok (cands : List KprobeTraceEvent) :
    ∀ st : ProbeState, st.ntevs + cands.length ≤ st.max_tevs →
      run_conversions st (cands.map Except.ok)
        = { st with tevs := st.tevs ++ cands,
                    ntevs := st.ntevs + cands.length } := by
  induction cands with
  | nil => intro st _; simp [run_conversions]
  | cons c cs ih =>
    intro st h
    simp only [List.length_cons] at h
    have hne : ¬ st.ntevs = st.max_tevs := by omega
    simp only [List.map_cons, run_conversions, convert_probe_point, if_neg hne]
    rw [ih]
    · simp [ProbeState.mk.injEq, List.append_assoc]
      omega
    · simp
      omega

/-- Claim C2: with capacity `max_tevs = N`, after `N` events have been
emitted the next candidate fails with `OutOfRange` (`-ERANGE`) and none
of the `N` already-emitted results is mutated (the state, including the
emitted list, is returned unchanged). -/
theorem capacity_exhausted_aborts (cands : List KprobeTraceEvent)
    (b : Except CErr KprobeTraceEvent) :
    (run_conversions (initProbeState cands.length) (cands.map Except.ok)).tevs
       = cands ∧
    convert_probe_point
        (run_conversions (initProbeState cands.length) (cands.map Except.ok)) b
      = (.error .range,
         run_conversions (initProbeState cands.length) (cands.map Except.ok)) := by
  have h := run_conversions_all_ok cands (initProbeState cands.length)
    (by simp [initProbeState])
  rw [h]
  refine ⟨by simp [initProbeState], ?_⟩
  simp [convert_probe_point, initProbeState]

/-- Claim C4 (amended): the name-comparison primitive returns `false`
exactly when the DIE has a name equal to the expected string (the C
function returns `strcmp`'s value — or `-1` for a nameless DIE —
implicitly converted to `bool`, so callers test `== 0` for a match). -/
theorem die_compare_name_false_iff (dieName : Option String) (tname : String) :
    die_compare_name dieName tname = false ↔ dieName = some tname := by
  cases dieName with
  | none => simp [die_compare_name]
  | some nm =>
    simp only [die_compare_name, decide_not, Bool.not_eq_false', decide_eq_true_eq,
      Option.some.injEq]
    exact ⟨fun h => h ▸ rfl, fun h => h.symm⟩

/-- Counterexample to C4 as stated: on equal names the primitive returns
`false`, not `true`, and on a nameless DIE it returns `true`, not
`false`. -/
theorem die_compare_name_inverted_sense :
    die_compare_name (some "schedule") "schedule" = false ∧
    die_compare_name none "schedule" = true := by decide

/-- The right-to-left character scan returns 0 iff one reversed string is
a prefix of the other. -/
theorem tailcmpAux_eq_zero_iff :
    ∀ a b : List Char, tailcmpAux a b = 0 ↔ (a <+: b ∨ b <+: a) := by
  intro a
  induction a with
  | nil => intro b; simp [tailcmpAux]
  | cons x xs ih =>
    intro b
    cases b with
    | nil => simp [tailcmpAux]
    | cons y ys =>
      simp only [tailcmpAux]
      by_cases hxy : x = y
      · subst hxy
        rw [if_pos rfl, ih ys]
        simp [List.cons_prefix_cons]
      · rw [if_neg hxy]
        have hne : (x.toNat : Int) - (y.toNat : Int) ≠ 0 := by
          intro hc
          apply hxy
          have hn : x.toNat = y.toNat := by omega
          have := congrArg Char.ofNat hn
          simpa [Char.ofNat_toNat] using this
        simp only [hne, List.cons_prefix_cons, hxy, false_iff, false_and, not_or,
          not_and, not_false_eq_true, and_true, true_and]
        exact fun h => absurd h.symm hxy

/-- Claim C5 (amended): `strtailcmp` returns 0 iff one string is a
character-level suffix of the other (the comparison stops when either
string is exhausted, so it may split a path component). -/
theorem strtailcmp_eq_zero_iff (s₁ s₂ : List Char) :
    strtailcmp s₁ s₂ = 0 ↔ (s₁ <:+ s₂ ∨ s₂ <:+ s₁) := by
  unfold strtailcmp
  rw [tailcmpAux_eq_zero_iff]
  simp

/-- Counterexample to C5 as stated: `"ar.c"` tail-matches `"bar.c"`
(return 0) although the match splits the path component `"bar.c"` —
the component-granular relation the spec sentence describes does not
hold there. -/
theorem strtailcmp_splits_component :
    strtailcmp "ar.c".data "bar.c".data = 0 ∧
    componentTailMatch "ar.c".data "bar.c".data = false := by decide

/-- A successful reverse-scan insertion of `n` is detected as a
duplicate by an immediately repeated insertion. -/
theorem lineListAddRev_again :
    ∀ (r : List Int) (n : Int) (r' : List Int),
      lineListAddRev r n = some r' → lineListAddRev r' n = none := by
  intro r
  induction r with
  | nil =>
    intro n r' h
    simp only [lineListAddRev] at h
    injection h with h
    subst h
    simp [lineListAddRev]
  | cons x xs ih =>
    intro n r' h
    simp only [lineListAddRev] at h
    by_cases h₁ : x < n
    · rw [if_pos h₁] at h
      injection h with h
      subst h
      simp [lineListAddRev, lt_irrefl, not_lt_of_lt h₁]
    · rw [if_neg h₁] at h
      by_cases h₂ : x = n
      · rw [if_pos h₂] at h
        cases h
      · rw [if_neg h₂] at h
        cases hh : lineListAddRev xs n with
        | none => rw [hh] at h; cases h
        | some r₂ =>
          rw [hh] at h
          injection h with h
          subst h
          simp only [lineListAddRev, if_neg h₁, if_neg h₂, ih n r₂ hh]

/-- A successful reverse-scan insertion leaves the head either the new
line or the previous head. -/
theorem lineListAddRev_head :
    ∀ (r : List Int) (n : Int) (r' : List Int),
      lineListAddRev r n = some r' →
      r'.head? = some n ∨ r'.head? = r.head? := by
  intro r
  induction r with
  | nil =>
    intro n r' h
    simp only [lineListAddRev] at h
    injection h with h
    subst h
    simp
  | cons x xs ih =>
    intro n r' h
    simp only [lineListAddRev] at h
    by_cases h₁ : x < n
    · rw [if_pos h₁] at h
      injection h with h
      subst h
      simp
    · rw [if_neg h₁] at h
      by_cases h₂ : x = n
      · rw [if_pos h₂] at h; cases h
      · rw [if_neg h₂] at h
        cases hh : lineListAddRev xs n with
        | none => rw [hh] at h; cases h
        | some r₂ =>
          rw [hh] at h
          injection h with h
          subst h
          simp

/-- Reverse-scan insertion preserves strict descending order. -/
theorem lineListAddRev_sorted :
    ∀ (r : List Int) (n : Int) (r' : List Int),
      List.Chain' (· > ·) r → lineListAddRev r n = some r' →
      List.Chain' (· > ·) r' := by
  intro r
  induction r with
  | nil =>
    intro n r' _ h
    simp only [lineListAddRev] at h
    injection h with h
    subst h
    simp
  | cons x xs ih =>
    intro n r' hs h
    simp only [lineListAddRev] at h
    by_cases h₁ : x < n
    · rw [if_pos h₁] at h
      injection h with h
      subst h
      exact List.Chain'.cons h₁ hs
    · rw [if_neg h₁] at h
      by_cases h₂ : x = n
      · rw [if_pos h₂] at h; cases h
      · rw [if_neg h₂] at h
        cases hh : lineListAddRev xs n with
        | none => rw [hh] at h; cases h
        | some r₂ =>
          rw [hh] at h
          injection h with h
          subst h
          rw [List.chain'_cons']
          refine ⟨?_, ih n r₂ hs.tail hh⟩
          intro y hy
          rcases lineListAddRev_head xs n r₂ hh with hy' | hy'
          · rw [hy'] at hy
            injection hy with hy
            subst hy
            omega
          · rw [hy'] at hy
            cases xs with
            | nil => simp at hy
            | cons z zs =>
              simp at hy
              subst hy
              exact (List.chain'_cons.mp hs).1

/-- Claim C6: `line_list__add_line` keeps the list ascending and
duplicate-free, and is idempotent: after a successful `add n`, a second
`add n` reports "already present" (return 1) and leaves the list
unchanged. -/
theorem line_list_add_idempotent (l : List Int) (n : Int) :
    (List.Chain' (· < ·) l →
      List.Chain' (· < ·) (line_list__add_line l n).2) ∧
    line_list__add_line (line_list__add_line l n).2 n
      = (1, (line_list__add_line l n).2) := by
  constructor
  · intro hs
    unfold line_list__add_line
    cases hh : lineListAddRev l.reverse n with
    | none => simpa using hs
    | some r' =>
      simp only
      have hdesc : List.Chain' (· > ·) l.reverse := by
        rw [List.chain'_reverse]
        exact hs
      have hr' := lineListAddRev_sorted l.reverse n r' hdesc hh
      have : List.Chain' (· > ·) r'.reverse.reverse := by
        simpa using hr'
      rw [List.chain'_reverse] at this
      exact this
  · unfold line_list__add_line
    cases hh : lineListAddRev l.reverse n with
    | none => simp [hh]
    | some r' =>
      simp only [List.reverse_reverse, lineListAddRev_again l.reverse n r' hh]

/-- Witness for C6 at a concrete input. -/
theorem line_list_add_idempotent_witness :
    List.Chain' (· < ·) ([3, 7] : List Int) ∧
    List.Chain' (· < ·) (line_list__add_line [3, 7] 5).2 ∧
    line_list__add_line (line_list__add_line [3, 7] 5).2 5
      = (1, (line_list__add_line [3, 7] 5).2) :=
  ⟨by simp [List.chain'_cons], (line_list_add_idempotent [3, 7] 5).1
     (by simp [List.chain'_cons]),
   (line_list_add_idempotent [3, 7] 5).2⟩

/-- Claim C3 (amended): when a type tag is emitted, its bit width is
`byte_size * 8` clamped to 64 — a positive multiple of 8 at most 64,
with the informational report fired exactly on the clamp.  (The claim's
set {8,16,32,64} is what real base types produce, but the code does not
restrict widths to powers of two.) -/
theorem convert_variable_type_bits (vr t : Die) (s : String) (rep : Bool)
    (hty : die_get_real_type vr = some t)
    (hok : convert_variable_type vr = .ok (some s, rep)) :
    ∃ bits, s = (if die_is_signed_type t then "s" else "u") ++ toString bits ∧
      8 ≤ bits ∧ bits ≤ 64 ∧ bits % 8 = 0 ∧
      (die_get_byte_size t * 8 > 64 → bits = 64 ∧ rep = true) ∧
      (die_get_byte_size t * 8 ≤ 64 → bits = die_get_byte_size t * 8 ∧
         rep = false) := by
  simp only [convert_variable_type, hty] at hok
  by_cases h₀ : die_get_byte_size t * 8 = 0
  · rw [if_pos h₀] at hok
    simp at hok
  · rw [if_neg h₀] at hok
    by_cases hbig : die_get_byte_size t * 8 > MAX_BASIC_TYPE_BITS
    · simp only [hbig, if_true, decide_True, Except.ok.injEq, Prod.mk.injEq,
        Option.some.injEq] at hok
      refine ⟨MAX_BASIC_TYPE_BITS, hok.1.symm, by norm_num [MAX_BASIC_TYPE_BITS],
        by norm_num [MAX_BASIC_TYPE_BITS], by norm_num [MAX_BASIC_TYPE_BITS],
        fun _ => ⟨rfl, hok.2.symm⟩, fun hle => ?_⟩
      exact absurd hle (by simp only [MAX_BASIC_TYPE_BITS] at hbig; omega)
    · simp only [hbig, if_false, decide_False, Except.ok.injEq, Prod.mk.injEq,
        Option.some.injEq] at hok
      simp only [MAX_BASIC_TYPE_BITS, gt_iff_lt, not_lt] at hbig
      refine ⟨die_get_byte_size t * 8, hok.1.symm, by omega, hbig,
        by omega, fun hgt => absurd hgt (by omega), fun _ => ⟨rfl, hok.2.symm⟩⟩

/-- Witness for C3's amended theorem: a 16-byte (128-bit) signed type is
clamped to `s64` with the informational report. -/
theorem convert_variable_type_bits_witness :
    (die_get_real_type
        (Die.mk .variable (some "v") 0 false
          (some (Die.mk .base_type (some "big") 16 true none [] none)) [] none)
      = some (Die.mk .base_type (some "big") 16 true none [] none)) ∧
    (convert_variable_type
        (Die.mk .variable (some "v") 0 false
          (some (Die.mk .base_type (some "big") 16 true none [] none)) [] none)
      = .ok (some "s64", true)) ∧
    ∃ bits, "s64" = (if die_is_signed_type
          (Die.mk .base_type (some "big") 16 true none [] none)
        then "s" else "u") ++ toString bits ∧
      8 ≤ bits ∧ bits ≤ 64 ∧ bits % 8 = 0 ∧
      (die_get_byte_size (Die.mk .base_type (some "big") 16 true none [] none) * 8 > 64 →
         bits = 64 ∧ true = true) ∧
      (die_get_byte_size (Die.mk .base_type (some "big") 16 true none [] none) * 8 ≤ 64 →
         bits = die_get_byte_size
           (Die.mk .base_type (some "big") 16 true none [] none) * 8 ∧
         true = false) :=
  ⟨rfl, rfl,
   convert_variable_type_bits
     (Die.mk .variable (some "v") 0 false
       (some (Die.mk .base_type (some "big") 16 true none [] none)) [] none)
     (Die.mk .base_type (some "big") 16 true none [] none) "s64" true rfl rfl⟩

/-- Counterexample to C3 as stated: a 3-byte underlying type yields the
tag `u24`, whose bit width is not in {8, 16, 32, 64}. -/
theorem convert_variable_type_not_power_of_two :
    convert_variable_type
        (Die.mk .variable (some "v") 0 false
          (some (Die.mk .base_type (some "odd") 3 false none [] none)) [] none)
      = .ok (some "u24", false) ∧
    "u24" ∉ ["s8", "s16", "s32", "s64", "u8", "u16", "u32", "u64"] := by
  constructor
  · rfl
  · decide

/-- Claim C7 (amended): when a source line was found at the queried
address, the reported line is relative — the found line minus the
anchor's declaration line, the anchor being the covering inline instance
if one exists and otherwise the outer subprogram — except that at the
exact function entry (with no covering inline instance) the relative
line is set to 0 by construction, regardless of the declaration line;
when no source line was found, a byte offset from the entry pc is
reported instead. -/
theorem reverse_lookup_relative_line :
    (∀ (addr e : Nat) (lineno : Int) (s nm : String) (sdl : Option Int),
       lineno ≠ 0 →
       (∀ (inm : String) (dl : Int),
          find_perf_probe_point
              ⟨true, some ⟨addr, lineno, some s⟩,
               some ⟨some nm, some e, sdl, some ⟨some inm, some dl⟩⟩⟩ addr
            = (1, ⟨some s, lineno - dl, 0, some inm⟩)) ∧
       (e = addr →
          find_perf_probe_point
              ⟨true, some ⟨addr, lineno, some s⟩,
               some ⟨some nm, some e, sdl, none⟩⟩ addr
            = (1, ⟨some s, 0, 0, some nm⟩)) ∧
       (∀ dl : Int, e ≠ addr →
          find_perf_probe_point
              ⟨true, some ⟨addr, lineno, some s⟩,
               some ⟨some nm, some e, some dl, none⟩⟩ addr
            = (1, ⟨some s, lineno - dl, 0, some nm⟩))) ∧
    (∀ (addr e : Nat) (nm : String) (sdl : Option Int) (inl : Option InlineInfo),
       find_perf_probe_point ⟨true, none, some ⟨some nm, some e, sdl, inl⟩⟩ addr
         = (1, ⟨none, 0, addr - e, some nm⟩)) := by
  constructor
  · intro addr e lineno s nm sdl hln
    refine ⟨?_, ?_, ?_⟩
    · intro inm dl
      simp [find_perf_probe_point, hln]
    · intro he
      subst he
      simp [find_perf_probe_point, hln]
    · intro dl hne
      simp [find_perf_probe_point, hln, hne]
  · intro addr e nm sdl inl
    simp [find_perf_probe_point]

/-- Witness for C7 at concrete inputs: an inline-anchored relative line,
an outer-subprogram-anchored relative line, and the offset fallback. -/
theorem reverse_lookup_relative_line_witness :
    find_perf_probe_point
        ⟨true, some ⟨256, 50, some "a.c"⟩,
         some ⟨some "fn", some 240, none, some ⟨some "inl", some 30⟩⟩⟩ 256
      = (1, ⟨some "a.c", 50 - 30, 0, some "inl"⟩) ∧
    find_perf_probe_point
        ⟨true, some ⟨256, 50, some "a.c"⟩,
         some ⟨some "fn", some 240, some 40, none⟩⟩ 256
      = (1, ⟨some "a.c", 50 - 40, 0, some "fn"⟩) ∧
    find_perf_probe_point ⟨true, none, some ⟨some "fn", some 240, none, none⟩⟩ 256
      = (1, ⟨none, 0, 256 - 240, some "fn"⟩) :=
  ⟨(reverse_lookup_relative_line.1 256 240 50 "a.c" "fn" none (by decide)).1
     "inl" 30,
   (reverse_lookup_relative_line.1 256 240 50 "a.c" "fn" (some 40)
     (by decide)).2.2 40 (by decide),
   reverse_lookup_relative_line.2 256 240 "fn" none none⟩

/-- Counterexample to C7 as stated: at the exact function entry with no
covering inline instance the code forces the relative line to 0 even
when the found line (50) differs from the subprogram's declaration line
(40), so the reported line is not `line − anchor_decl_line` (= 10). -/
theorem reverse_lookup_entry_line_forced_zero :
    (find_perf_probe_point
        ⟨true, some ⟨1024, 50, some "f.c"⟩,
         some ⟨some "fn", some 1024, some 40, none⟩⟩ 1024).2.ppline = 0 ∧
    ¬ ((find_perf_probe_point
        ⟨true, some ⟨1024, 50, some "f.c"⟩,
         some ⟨some "fn", some 1024, some 40, none⟩⟩ 1024).2.ppline
          = 50 - 40) := by
  exact ⟨rfl, by decide⟩

/-- Claim C8: path resolution with a configured source prefix
terminates.  The conjuncts: a readable path is returned as-is; a
non-retryable errno fails immediately with that errno; each retry's new
suffix is strictly shorter than the previous one; and under persistent
retryable failure the loop exhausts the suffix and fails with `-ENOENT`
(NotFound). -/
theorem get_real_path_terminates :
    (∀ (ac : List Char → Option Int) (pre raw : List Char),
       ac (pre ++ '/' :: raw) = none →
       get_real_path ac (some pre) raw = .ok (pre ++ '/' :: raw)) ∧
    (∀ (ac : List Char → Option Int) (pre raw : List Char) (e : Int),
       ac (pre ++ '/' :: raw) = some e → retryableErrno e = false →
       get_real_path ac (some pre) raw = .error (-e)) ∧
    (∀ (x : Char) (rest raw' : List Char),
       strchrSlash rest = some raw' →
       raw'.length < (x :: rest).length) ∧
    (∀ (ac : List Char → Option Int) (pre : List Char),
       (∀ p, ∃ e, ac p = some e ∧ retryableErrno e = true) →
       ∀ raw, get_real_path ac (some pre) raw = .error (-2)) := by
  have hok : ∀ (ac : List Char → Option Int) (pre raw : List Char)
      (fuel : Nat), ac (pre ++ '/' :: raw) = none →
      goLoop ac pre fuel raw = .ok (pre ++ '/' :: raw) := by
    intro ac pre raw fuel h
    have hstep : realPathStep ac pre raw = .inl (.ok (pre ++ '/' :: raw)) := by
      unfold realPathStep
      rw [h]
    cases fuel <;> simp [goLoop, hstep]
  have herr : ∀ (ac : List Char → Option Int) (pre raw : List Char)
      (fuel : Nat) (e : Int), ac (pre ++ '/' :: raw) = some e →
      retryableErrno e = false → goLoop ac pre fuel raw = .error (-e) := by
    intro ac pre raw fuel e h hre
    have hstep : realPathStep ac pre raw = .inl (.error (-e)) := by
      unfold realPathStep
      rw [h]
      simp [hre]
    cases fuel <;> simp [goLoop, hstep]
  refine ⟨?_, ?_, ?_, ?_⟩
  · intro ac pre raw h
    exact hok ac pre raw raw.length h
  · intro ac pre raw e h hre
    exact herr ac pre raw raw.length e h hre
  · intro x rest raw' h
    have := strchrSlash_length_le rest raw' h
    simp only [List.length_cons]
    omega
  · intro ac pre hac
    have main : ∀ (fuel : Nat) (raw : List Char),
        goLoop ac pre fuel raw = .error (-2) := by
      intro fuel
      induction fuel with
      | zero =>
        intro raw
        obtain ⟨e, he, hre⟩ := hac (pre ++ '/' :: raw)
        simp only [goLoop]
        unfold realPathStep
        rw [he]
        simp only [hre, if_true]
        cases raw with
        | nil => rfl
        | cons x rest =>
          cases hh : strchrSlash rest with
          | none => simp [hh]
          | some raw' => simp [hh]
      | succ f ih =>
        intro raw
        obtain ⟨e, he, hre⟩ := hac (pre ++ '/' :: raw)
        simp only [goLoop]
        unfold realPathStep
        rw [he]
        simp only [hre, if_true]
        cases raw with
        | nil => rfl
        | cons x rest =>
          cases hh : strchrSlash rest with
          | none => simp [hh]
          | some raw' => simp [hh, ih raw']
    intro raw
    exact main raw.length raw

/-- Witness for C8 at concrete inputs. -/
theorem get_real_path_terminates_witness :
    get_real_path (fun _ => none) (some "src".data) "a/b.c".data
      = .ok ("src".data ++ '/' :: "a/b.c".data) ∧
    get_real_path (fun _ => some 13) (some "src".data) "a/b.c".data
      = .error (-13) ∧
    ("/b.c".data).length < ('a' :: "/b.c".data).length ∧
    get_real_path (fun _ => some 2) (some "src".data) "a/b.c".data
      = .error (-2) :=
  ⟨get_real_path_terminates.1 (fun _ => none) "src".data "a/b.c".data rfl,
   get_real_path_terminates.2.1 (fun _ => some 13) "src".data "a/b.c".data 13
     rfl (by decide),
   get_real_path_terminates.2.2.1 'a' "/b.c".data "/b.c".data (by decide),
   get_real_path_terminates.2.2.2 (fun _ => some 2) "src".data
     (fun _ => ⟨2, rfl, by decide⟩) "a/b.c".data⟩

/-- Claim C9: a variable located directly in a register (no indirection
frame) whose resolved type is an array, accessed with an `[index]` first
step, reaches the unguarded `ref->offset += ...` write with `ref ==
NULL`: the C code dereferences a NULL pointer there (the claimed
invariant that the frame is non-null in every reachable call fails). -/
theorem register_array_index_null_deref :
    convert_variable
        (Die.mk .variable (some "a") 0 false
          (some (Die.mk .array_type none 16 false
            (some (Die.mk .base_type (some "int") 4 true none [] none)) [] none))
          [] none)
        [⟨DW_OP_reg0, 0, 0⟩] none (fun _ => some "ax")
        [⟨"[0]", false, 0⟩] none
      = .error .nullDeref := by rfl

/-- The split of a list at separators is never empty. -/
theorem splitOnChar_ne_nil (c : Char) : ∀ l, splitOnChar c l ≠ [] := by
  intro l
  cases l with
  | nil => simp [splitOnChar]
  | cons x xs =>
    simp only [splitOnChar]
    by_cases h : x = c
    · simp [h]
    · simp only [if_neg h]
      cases hh : splitOnChar c xs <;> simp

/-- Prepend already-read characters to the first listed line. -/
def consHead (acc : List Char) : List (List Char) → List (List Char)
  | [] => [acc]
  | s :: ss => (acc ++ s) :: ss

theorem consHead_nil :
    ∀ ls : List (List Char), ls ≠ [] → consHead [] ls = ls := by
  intro ls h
  cases ls with
  | nil => exact absurd rfl h
  | cons s ss => simp [consHead]

theorem scanLines_cons_eq (m : List Char → Bool) (acc : List Char) (x : Char)
    (xs : List Char) (line : Nat) :
    scanLines m acc (x :: xs) line
      = if x = '\n' then
          (if m acc then [line] else []) ++ scanLines m [] xs (line + 1)
        else scanLines m (acc ++ [x]) xs line := rfl

theorem splitOnChar_cons_eq (c x : Char) (xs : List Char) :
    splitOnChar c (x :: xs)
      = if x = c then [] :: splitOnChar c xs
        else
          match splitOnChar c xs with
          | [] => [[x]]
          | s :: ss => (x :: s) :: ss := rfl

/-- The buffer scan over `c ++ ['\n']` tests exactly the `'\n'`-separated
segments of `c` (with the partial line `acc` prepended to the first). -/
theorem scanLines_append_newline (m : List Char → Bool) :
    ∀ (c acc : List Char) (line : Nat),
      scanLines m acc (c ++ ['\n']) line
        = matchNumbered m (consHead acc (splitOnChar '\n' c)) line := by
  intro c
  induction c with
  | nil =>
    intro acc line
    simp [scanLines, splitOnChar, consHead, matchNumbered]
  | cons x xs ih =>
    intro acc line
    by_cases hx : x = '\n'
    · subst hx
      rw [List.cons_append, scanLines_cons_eq, if_pos rfl,
        ih [] (line + 1), consHead_nil _ (splitOnChar_ne_nil '\n' xs),
        splitOnChar_cons_eq, if_pos rfl]
      simp [consHead, matchNumbered]
    · rw [List.cons_append, scanLines_cons_eq, if_neg hx,
        ih (acc ++ [x]) line, splitOnChar_cons_eq, if_neg hx]
      cases hh : splitOnChar '\n' xs with
      | nil => exact absurd hh (splitOnChar_ne_nil '\n' xs)
      | cons s ss => simp [consHead, List.append_assoc]

/-- Claim C10: the lazy matcher tests every line of the source file
against the pattern — the sentinel newline appended before scanning
guarantees that a final line lacking a trailing newline is tested too —
and returns matches with their correct 1-based line numbers: the scan
equals pattern-testing the `'\n'`-separated logical lines of the file. -/
theorem lazy_match_covers_all_lines (m : List Char → Bool)
    (content : List Char) :
    find_lazy_match_lines m content
      = matchNumbered m (splitOnChar '\n' content) 1 := by
  unfold find_lazy_match_lines
  rw [scanLines_append_newline m content [] 1,
    consHead_nil _ (splitOnChar_ne_nil '\n' content)]

example :
    find_lazy_match_lines (fun l => decide (l = "ab".data)) "x\nab".data
      = [2] := by decide

end ProbeFinder
